import Mathlib

/-!
Verification development for the `async_standup` scoring and storage core.

The Python source (`src/async_standup/insight_engine.py`, `storage.py`,
`analyze_audio.py`) is shallowly embedded below.  Python floats are modelled
as exact rationals (`ℚ`), Python dicts as association lists (first-match
lookup, insertion order preserved), and Python `None` / absent values as
`Option`.  `round(x, 3)` is modelled as round-half-to-even at the third
decimal, matching Python's `round` on exact values.
-/

namespace AsyncStandup

/-! ## Rounding: model of Python `round(x, 3)` -/

/-- Round a rational to the nearest integer, ties to even
(the behaviour of Python's builtin `round` on exact halves). -/
def roundHalfEven (q : ℚ) : ℤ :=
  let f := ⌊q⌋
  let r := q - (f : ℚ)
  if r < 1/2 then f
  else if 1/2 < r then f + 1
  else if f % 2 = 0 then f else f + 1

/-- Model of Python `round(q, 3)`. -/
def round3 (q : ℚ) : ℚ := (roundHalfEven (q * 1000) : ℚ) / 1000

theorem floor_le_roundHalfEven (q : ℚ) : ⌊q⌋ ≤ roundHalfEven q := by
  unfold roundHalfEven
  dsimp only
  split_ifs <;> omega

theorem roundHalfEven_le_ceil (q : ℚ) : roundHalfEven q ≤ ⌈q⌉ := by
  unfold roundHalfEven
  dsimp only
  have hfloor : (⌊q⌋ : ℚ) ≤ q := Int.floor_le q
  split_ifs with h1 h2 h3
  · exact Int.floor_le_ceil q
  · have hlt : (⌊q⌋ : ℚ) < q := by linarith
    have := Int.lt_ceil.mpr hlt
    omega
  · exact Int.floor_le_ceil q
  · have hlt : (⌊q⌋ : ℚ) < q := by linarith
    have := Int.lt_ceil.mpr hlt
    omega

theorem round3_le_of_le {q : ℚ} {n : ℤ} (h : q ≤ (n : ℚ) / 1000) :
    round3 q ≤ (n : ℚ) / 1000 := by
  unfold round3
  have h1 : q * 1000 ≤ (n : ℚ) := by linarith
  have h2 : roundHalfEven (q * 1000) ≤ n :=
    (roundHalfEven_le_ceil _).trans (Int.ceil_le.mpr h1)
  have h3 : ((roundHalfEven (q * 1000) : ℤ) : ℚ) ≤ (n : ℚ) := by exact_mod_cast h2
  linarith

theorem le_round3_of_le {q : ℚ} {n : ℤ} (h : (n : ℚ) / 1000 ≤ q) :
    (n : ℚ) / 1000 ≤ round3 q := by
  unfold round3
  have h1 : (n : ℚ) ≤ q * 1000 := by linarith
  have h2 : n ≤ roundHalfEven (q * 1000) :=
    (Int.le_floor.mpr h1).trans (floor_le_roundHalfEven _)
  have h3 : ((n : ℤ) : ℚ) ≤ ((roundHalfEven (q * 1000) : ℤ) : ℚ) := by exact_mod_cast h2
  linarith

/-! ## Hybrid stuck scorer (`insight_engine.calculate_stuck_probability`) -/

/-- Values stored in the `conversational_signals` dict, as used by the
scorer: numbers (`vagueness_score`, `specificity_score`, `hedging_count`)
and booleans (`help_seeking`). -/
inductive SVal where
  | num (q : ℚ)
  | bool (b : Bool)
deriving DecidableEq

/-- Model of the `conversational_signals` dict. -/
abbrev Signals := List (String × SVal)

/-- Model of the `emotions` percentage dict. -/
abbrev Emotions := List (String × ℚ)

/-- Model of `dict.get(k, d)` for a numeric value. -/
def getNum (m : Signals) (k : String) (d : ℚ) : ℚ :=
  match m.lookup k with
  | some (.num q) => q
  | _ => d

/-- Model of `dict.get(k, d)` for a boolean value. -/
def getBool (m : Signals) (k : String) (d : Bool) : Bool :=
  match m.lookup k with
  | some (.bool b) => b
  | _ => d

/-- The `breakdown['conversational']` sub-dict of the scorer output. -/
structure ConvBreakdown where
  vagueness : ℚ
  lack_of_specificity : ℚ
  hedging : ℚ
  avoiding_help : ℚ
deriving DecidableEq

/-- The `breakdown['emotional']` sub-dict of the scorer output. -/
structure EmoBreakdown where
  negative_emotions : ℚ
  lack_of_positive : ℚ
  anxiety : ℚ
deriving DecidableEq

/-- The dict returned by `calculate_stuck_probability`.  The `breakdown`
dict is represented by its two optional sub-dicts (each present exactly
when the corresponding key was written). -/
structure StuckResult where
  stuck_probability : ℚ
  conversational_score : ℚ
  emotional_score : ℚ
  status : String
  breakdown_conversational : Option ConvBreakdown
  breakdown_emotional : Option EmoBreakdown
deriving DecidableEq

/-- The conversational component, mirroring the
`if conversational_signals:` branch (Python truthiness: `None` and the
empty dict both skip the branch, leaving the score `0.0`). -/
def conversationalScoreOf : Option Signals → ℚ
  | none => 0
  | some m =>
    if m.isEmpty then 0
    else
      let vagueness := getNum m "vagueness_score" 0
      let specificity := getNum m "specificity_score" 1
      let hedging_count := getNum m "hedging_count" 0
      let help_seeking := getBool m "help_seeking" true
      let hedging_normalized := min (hedging_count / 20) 1
      vagueness * 0.3 + (1 - specificity) * 0.3 + hedging_normalized * 0.2 +
        (if help_seeking then (0 : ℚ) else 1) * 0.2

/-- The `breakdown['conversational']` entry written by the same branch. -/
def convBreakdownOf : Option Signals → Option ConvBreakdown
  | none => none
  | some m =>
    if m.isEmpty then none
    else
      let vagueness := getNum m "vagueness_score" 0
      let specificity := getNum m "specificity_score" 1
      let hedging_count := getNum m "hedging_count" 0
      let help_seeking := getBool m "help_seeking" true
      let hedging_normalized := min (hedging_count / 20) 1
      some ⟨vagueness, 1 - specificity, hedging_normalized,
        if help_seeking then (0 : ℚ) else 1⟩

/-- The emotional component, mirroring the `if emotions:` branch
(each percentage read with default `0.0` and divided by `100.0`; the raw
sum is clamped above at `1.0` only). -/
def emotionalScoreOf : Option Emotions → ℚ
  | none => 0
  | some m =>
    if m.isEmpty then 0
    else
      let sadness := (m.lookup "sadness").getD 0 / 100
      let frustration := (m.lookup "frustration").getD 0 / 100
      let anxiety := (m.lookup "anxiety").getD 0 / 100
      let happiness := (m.lookup "happiness").getD 0 / 100
      let excitement := (m.lookup "excitement").getD 0 / 100
      min ((sadness + frustration) * 0.4 + (1 - (happiness + excitement)) * 0.3 +
        anxiety * 0.3) 1

/-- The `breakdown['emotional']` entry written by the same branch. -/
def emoBreakdownOf : Option Emotions → Option EmoBreakdown
  | none => none
  | some m =>
    if m.isEmpty then none
    else
      let sadness := (m.lookup "sadness").getD 0 / 100
      let frustration := (m.lookup "frustration").getD 0 / 100
      let anxiety := (m.lookup "anxiety").getD 0 / 100
      let happiness := (m.lookup "happiness").getD 0 / 100
      let excitement := (m.lookup "excitement").getD 0 / 100
      some ⟨(sadness + frustration) / 2, 1 - (happiness + excitement) / 2, anxiety⟩

/-- The combined (pre-rounding) stuck probability. -/
def rawStuckProbability (cs : Option Signals) (emo : Option Emotions)
    (conversational_weight emotional_weight : ℚ) : ℚ :=
  conversationalScoreOf cs * conversational_weight +
    emotionalScoreOf emo * emotional_weight

/-- Status classification as in the source: `> 0.7` stuck, `>= 0.4`
warning, otherwise on track. -/
def statusOf (p : ℚ) : String :=
  if 0.7 < p then "stuck" else if 0.4 ≤ p then "warning" else "on_track"

/-- `insight_engine.calculate_stuck_probability`. -/
def calculate_stuck_probability (cs : Option Signals) (emo : Option Emotions)
    (conversational_weight emotional_weight : ℚ) : StuckResult :=
  { stuck_probability :=
      round3 (rawStuckProbability cs emo conversational_weight emotional_weight)
    conversational_score := round3 (conversationalScoreOf cs)
    emotional_score := round3 (emotionalScoreOf emo)
    status := statusOf (rawStuckProbability cs emo conversational_weight emotional_weight)
    breakdown_conversational := convBreakdownOf cs
    breakdown_emotional := emoBreakdownOf emo }

theorem round3_zero : round3 0 = 0 := by
  norm_num [round3, roundHalfEven]

theorem round3_nonneg (q : ℚ) (h : 0 ≤ q) : 0 ≤ round3 q := by
  have h0 : ((0 : ℤ) : ℚ) / 1000 ≤ q := by norm_num [h]
  have := le_round3_of_le h0
  norm_num at this
  exact this

theorem round3_le_one (q : ℚ) (h : q ≤ 1) : round3 q ≤ 1 := by
  have h0 : q ≤ ((1000 : ℤ) : ℚ) / 1000 := by norm_num [h]
  have := round3_le_of_le h0
  norm_num at this
  exact this

theorem neg03_le_round3 (q : ℚ) (h : -0.3 ≤ q) : -0.3 ≤ round3 q := by
  have h0 : ((-300 : ℤ) : ℚ) / 1000 ≤ q := by push_cast; norm_num; linarith
  have := le_round3_of_le h0
  norm_num at this
  linarith

theorem neg009_le_round3 (q : ℚ) (h : -0.09 ≤ q) : -0.09 ≤ round3 q := by
  have h0 : ((-90 : ℤ) : ℚ) / 1000 ≤ q := by push_cast; norm_num; linarith
  have := le_round3_of_le h0
  norm_num at this
  linarith

/-- A key absent from an association list looks up to `none`. -/
theorem lookup_eq_none_of_ne {β : Type} (m : List (String × β)) (k : String)
    (h : ∀ p ∈ m, p.1 ≠ k) : m.lookup k = none := by
  induction m with
  | nil => rfl
  | cons a t ih =>
    have ha : a.1 ≠ k := h a (List.mem_cons_self a t)
    have : (k == a.1) = false := by
      simp [beq_eq_false_iff_ne]
      exact fun hk => ha hk.symm
    simp only [List.lookup, this]
    exact ih fun p hp => h p (List.mem_cons_of_mem a hp)

/-- The conversational-score formula as stated in the spec (claim C1),
built from the same defaulted reads. -/
def specConversationalScore (m : Signals) : ℚ :=
  getNum m "vagueness_score" 0 * 0.3 + (1 - getNum m "specificity_score" 1) * 0.3 +
    min (getNum m "hedging_count" 0 / 20) 1 * 0.2 +
    (if getBool m "help_seeking" true then (0 : ℚ) else 1) * 0.2

/-- The emotional-score formula as stated in the spec (claim C1). -/
def specEmotionalScore (l : Emotions) : ℚ :=
  min (((l.lookup "sadness").getD 0 / 100 + (l.lookup "frustration").getD 0 / 100) * 0.4 +
    (1 - ((l.lookup "happiness").getD 0 / 100 + (l.lookup "excitement").getD 0 / 100)) * 0.3 +
    (l.lookup "anxiety").getD 0 / 100 * 0.3) 1

/-- C1: with non-empty `conversational_signals` and `emotions` supplied, the
returned conversational score is the vagueness/specificity/hedging/help
formula (missing keys defaulted to 0, 1, 0, True), the emotional score is
the clamped-above emotion formula over percentages divided by 100 (no lower
clamp), the stuck probability is the weighted sum with no weight
normalization, each returned score rounded to three decimals; and an
unsupplied component is 0.0. -/
theorem C1_hybrid_score_formula (m : Signals) (l : Emotions) (cw ew : ℚ)
    (hm : m ≠ []) (hl : l ≠ []) :
    (calculate_stuck_probability (some m) (some l) cw ew).conversational_score
        = round3 (specConversationalScore m) ∧
    (calculate_stuck_probability (some m) (some l) cw ew).emotional_score
        = round3 (specEmotionalScore l) ∧
    (calculate_stuck_probability (some m) (some l) cw ew).stuck_probability
        = round3 (specConversationalScore m * cw + specEmotionalScore l * ew) ∧
    (∀ (e : Option Emotions) (cw' ew' : ℚ),
      (calculate_stuck_probability none e cw' ew').conversational_score = 0) ∧
    (∀ (c : Option Signals) (cw' ew' : ℚ),
      (calculate_stuck_probability c none cw' ew').emotional_score = 0) := by
  obtain ⟨a, as, rfl⟩ := List.exists_cons_of_ne_nil hm
  obtain ⟨b, bs, rfl⟩ := List.exists_cons_of_ne_nil hl
  refine ⟨rfl, rfl, rfl, ?_, ?_⟩
  · intro e cw' ew'
    simp [calculate_stuck_probability, conversationalScoreOf, round3_zero]
  · intro c cw' ew'
    simp [calculate_stuck_probability, emotionalScoreOf, round3_zero]

def c1SignalsInput : Signals := [("vagueness_score", .num 0.5)]

def c1EmotionsInput : Emotions := [("sadness", 40)]

theorem C1_hybrid_score_formula_witness :
    c1SignalsInput ≠ [] ∧ c1EmotionsInput ≠ [] ∧
    ((calculate_stuck_probability (some c1SignalsInput) (some c1EmotionsInput) 0.7 0.3).conversational_score
        = round3 (specConversationalScore c1SignalsInput) ∧
      (calculate_stuck_probability (some c1SignalsInput) (some c1EmotionsInput) 0.7 0.3).emotional_score
        = round3 (specEmotionalScore c1EmotionsInput) ∧
      (calculate_stuck_probability (some c1SignalsInput) (some c1EmotionsInput) 0.7 0.3).stuck_probability
        = round3 (specConversationalScore c1SignalsInput * 0.7 + specEmotionalScore c1EmotionsInput * 0.3) ∧
      (∀ (e : Option Emotions) (cw' ew' : ℚ),
        (calculate_stuck_probability none e cw' ew').conversational_score = 0) ∧
      (∀ (c : Option Signals) (cw' ew' : ℚ),
        (calculate_stuck_probability c none cw' ew').emotional_score = 0)) :=
  ⟨by simp [c1SignalsInput], by simp [c1EmotionsInput],
    C1_hybrid_score_formula c1SignalsInput c1EmotionsInput 0.7 0.3
      (by simp [c1SignalsInput]) (by simp [c1EmotionsInput])⟩

/-- Signals whose conversational score is exactly 0.7
(`1*0.3 + (1-0)*0.3 + min(10/20,1)*0.2 + 0*0.2`). -/
def boundarySignals07 : Signals :=
  [("vagueness_score", .num 1), ("specificity_score", .num 0), ("hedging_count", .num 10)]

/-- Signals whose conversational score is exactly 0.4
(`1*0.3 + (1-1)*0.3 + min(10/20,1)*0.2 + 0*0.2`). -/
def boundarySignals04 : Signals :=
  [("vagueness_score", .num 1), ("hedging_count", .num 10)]

/-- C2: the returned status is computed from the pre-rounding stuck
probability: strictly above 0.7 is "stuck", between 0.4 and 0.7 (both ends
included) is "warning", strictly below 0.4 is "on_track"; in particular a
probability computed as exactly 0.70 or exactly 0.40 is "warning". -/
theorem C2_status_classification (cs : Option Signals) (emo : Option Emotions) (cw ew : ℚ) :
    (0.7 < rawStuckProbability cs emo cw ew →
      (calculate_stuck_probability cs emo cw ew).status = "stuck") ∧
    (0.4 ≤ rawStuckProbability cs emo cw ew → rawStuckProbability cs emo cw ew ≤ 0.7 →
      (calculate_stuck_probability cs emo cw ew).status = "warning") ∧
    (rawStuckProbability cs emo cw ew < 0.4 →
      (calculate_stuck_probability cs emo cw ew).status = "on_track") ∧
    rawStuckProbability (some boundarySignals07) none 1 0.3 = 0.7 ∧
    (calculate_stuck_probability (some boundarySignals07) none 1 0.3).status = "warning" ∧
    rawStuckProbability (some boundarySignals04) none 1 0.3 = 0.4 ∧
    (calculate_stuck_probability (some boundarySignals04) none 1 0.3).status = "warning" := by
  have h07 : rawStuckProbability (some boundarySignals07) none 1 0.3 = 0.7 := by
    simp [rawStuckProbability, conversationalScoreOf, emotionalScoreOf, getNum, getBool,
      List.lookup, boundarySignals07]
    norm_num [min_def]
  have h04 : rawStuckProbability (some boundarySignals04) none 1 0.3 = 0.4 := by
    simp [rawStuckProbability, conversationalScoreOf, emotionalScoreOf, getNum, getBool,
      List.lookup, boundarySignals04]
    norm_num [min_def]
  refine ⟨?_, ?_, ?_, h07, ?_, h04, ?_⟩
  · intro h
    show statusOf _ = _
    rw [statusOf, if_pos h]
  · intro h1 h2
    show statusOf _ = _
    rw [statusOf, if_neg (not_lt.mpr h2), if_pos h1]
  · intro h
    show statusOf _ = _
    have hn7 : ¬ (0.7 : ℚ) < rawStuckProbability cs emo cw ew := by
      rw [not_lt]
      linarith
    have hn4 : ¬ (0.4 : ℚ) ≤ rawStuckProbability cs emo cw ew := not_le.mpr h
    rw [statusOf, if_neg hn7, if_neg hn4]
  · show statusOf _ = _
    rw [h07, statusOf]
    norm_num
  · show statusOf _ = _
    rw [h04, statusOf]
    norm_num

theorem C2_status_classification_witness :
    (calculate_stuck_probability (some boundarySignals07) none 1 0.3).status = "warning" :=
  (C2_status_classification (some boundarySignals07) none 1 0.3).2.1
    (by
      have := (C2_status_classification (some boundarySignals07) none 1 0.3).2.2.2.1
      rw [this]
      norm_num)
    (by
      have := (C2_status_classification (some boundarySignals07) none 1 0.3).2.2.2.1
      rw [this])

theorem conversationalScoreOf_bounds (cs : Option Signals)
    (hcs : ∀ m, cs = some m →
      0 ≤ getNum m "vagueness_score" 0 ∧ getNum m "vagueness_score" 0 ≤ 1 ∧
      0 ≤ getNum m "specificity_score" 1 ∧ getNum m "specificity_score" 1 ≤ 1 ∧
      0 ≤ getNum m "hedging_count" 0) :
    0 ≤ conversationalScoreOf cs ∧ conversationalScoreOf cs ≤ 1 := by
  cases cs with
  | none => norm_num [conversationalScoreOf]
  | some m =>
    obtain ⟨h1, h2, h3, h4, h5⟩ := hcs m rfl
    by_cases hm : m.isEmpty
    · norm_num [conversationalScoreOf, hm]
    · simp only [conversationalScoreOf, hm, Bool.false_eq_true, if_false]
      have hn0 : 0 ≤ min (getNum m "hedging_count" 0 / 20) 1 :=
        le_min (by positivity) zero_le_one
      have hn1 : min (getNum m "hedging_count" 0 / 20) 1 ≤ 1 := min_le_right _ _
      cases hb : getBool m "help_seeking" true <;>
        simp only [hb, if_true, if_false, Bool.false_eq_true] <;>
        constructor <;> nlinarith

theorem emotionalScoreOf_bounds (emo : Option Emotions)
    (hemo : ∀ l, emo = some l →
      (0 ≤ (l.lookup "sadness").getD 0 ∧ (l.lookup "sadness").getD 0 ≤ 100) ∧
      (0 ≤ (l.lookup "frustration").getD 0 ∧ (l.lookup "frustration").getD 0 ≤ 100) ∧
      (0 ≤ (l.lookup "anxiety").getD 0 ∧ (l.lookup "anxiety").getD 0 ≤ 100) ∧
      (0 ≤ (l.lookup "happiness").getD 0 ∧ (l.lookup "happiness").getD 0 ≤ 100) ∧
      (0 ≤ (l.lookup "excitement").getD 0 ∧ (l.lookup "excitement").getD 0 ≤ 100)) :
    -0.3 ≤ emotionalScoreOf emo ∧ emotionalScoreOf emo ≤ 1 := by
  cases emo with
  | none => norm_num [emotionalScoreOf]
  | some l =>
    obtain ⟨⟨s0, s1⟩, ⟨f0, f1⟩, ⟨a0, a1⟩, ⟨p0, p1⟩, ⟨e0, e1⟩⟩ := hemo l rfl
    by_cases hl : l.isEmpty
    · norm_num [emotionalScoreOf, hl]
    · simp only [emotionalScoreOf, hl, Bool.false_eq_true, if_false]
      constructor
      · exact le_min (by linarith) (by norm_num)
      · exact min_le_right _ _

/-- For claim C3's counterexample: emotions satisfying the documented
invariant (each percentage in [0,100]) that drive the emotional score
negative. -/
def c3Emotions : Emotions := [("happiness", 100), ("excitement", 100)]

/-- C3 counterexample: with `happiness == excitement == 100` (a mapping
within the documented invariants) and default weights, the returned
emotional score is -0.3 and the returned stuck probability is -0.09 — both
outside [0,1], refuting the claimed ranges. -/
theorem C3_counterexample :
    (0 ≤ (c3Emotions.lookup "happiness").getD 0 ∧ (c3Emotions.lookup "happiness").getD 0 ≤ 100) ∧
    (0 ≤ (c3Emotions.lookup "excitement").getD 0 ∧ (c3Emotions.lookup "excitement").getD 0 ≤ 100) ∧
    (calculate_stuck_probability none (some c3Emotions) 0.7 0.3).emotional_score = -0.3 ∧
    (calculate_stuck_probability none (some c3Emotions) 0.7 0.3).stuck_probability = -0.09 := by
  refine ⟨by simp [c3Emotions, List.lookup], by simp [c3Emotions, List.lookup], ?_, ?_⟩ <;>
    simp [calculate_stuck_probability, rawStuckProbability, conversationalScoreOf,
      emotionalScoreOf, List.lookup, c3Emotions] <;>
    norm_num [round3, roundHalfEven, min_def]

/-- C3 (amended): under the documented input invariants and default
weights, the conversational score lies in [0,1], but the emotional score
only in [-0.3, 1] and the stuck probability only in [-0.09, 1] (the
unclamped `1 - (happiness + excitement)` term can push both negative). -/
theorem C3_score_bounds (cs : Option Signals) (emo : Option Emotions)
    (hcs : ∀ m, cs = some m →
      0 ≤ getNum m "vagueness_score" 0 ∧ getNum m "vagueness_score" 0 ≤ 1 ∧
      0 ≤ getNum m "specificity_score" 1 ∧ getNum m "specificity_score" 1 ≤ 1 ∧
      0 ≤ getNum m "hedging_count" 0)
    (hemo : ∀ l, emo = some l →
      (0 ≤ (l.lookup "sadness").getD 0 ∧ (l.lookup "sadness").getD 0 ≤ 100) ∧
      (0 ≤ (l.lookup "frustration").getD 0 ∧ (l.lookup "frustration").getD 0 ≤ 100) ∧
      (0 ≤ (l.lookup "anxiety").getD 0 ∧ (l.lookup "anxiety").getD 0 ≤ 100) ∧
      (0 ≤ (l.lookup "happiness").getD 0 ∧ (l.lookup "happiness").getD 0 ≤ 100) ∧
      (0 ≤ (l.lookup "excitement").getD 0 ∧ (l.lookup "excitement").getD 0 ≤ 100)) :
    (0 ≤ (calculate_stuck_probability cs emo 0.7 0.3).conversational_score ∧
      (calculate_stuck_probability cs emo 0.7 0.3).conversational_score ≤ 1) ∧
    (-0.3 ≤ (calculate_stuck_probability cs emo 0.7 0.3).emotional_score ∧
      (calculate_stuck_probability cs emo 0.7 0.3).emotional_score ≤ 1) ∧
    (-0.09 ≤ (calculate_stuck_probability cs emo 0.7 0.3).stuck_probability ∧
      (calculate_stuck_probability cs emo 0.7 0.3).stuck_probability ≤ 1) := by
  have hc := conversationalScoreOf_bounds cs hcs
  have he := emotionalScoreOf_bounds emo hemo
  have hp1 : -0.09 ≤ rawStuckProbability cs emo 0.7 0.3 := by
    unfold rawStuckProbability
    nlinarith [hc.1, hc.2, he.1, he.2]
  have hp2 : rawStuckProbability cs emo 0.7 0.3 ≤ 1 := by
    unfold rawStuckProbability
    nlinarith [hc.1, hc.2, he.1, he.2]
  exact ⟨⟨round3_nonneg _ hc.1, round3_le_one _ hc.2⟩,
    ⟨neg03_le_round3 _ he.1, round3_le_one _ he.2⟩,
    ⟨neg009_le_round3 _ hp1, round3_le_one _ hp2⟩⟩

theorem C3_score_bounds_witness :
    (0 ≤ (calculate_stuck_probability none (some [("sadness", 50)]) 0.7 0.3).conversational_score ∧
      (calculate_stuck_probability none (some [("sadness", 50)]) 0.7 0.3).conversational_score ≤ 1) ∧
    (-0.3 ≤ (calculate_stuck_probability none (some [("sadness", 50)]) 0.7 0.3).emotional_score ∧
      (calculate_stuck_probability none (some [("sadness", 50)]) 0.7 0.3).emotional_score ≤ 1) ∧
    (-0.09 ≤ (calculate_stuck_probability none (some [("sadness", 50)]) 0.7 0.3).stuck_probability ∧
      (calculate_stuck_probability none (some [("sadness", 50)]) 0.7 0.3).stuck_probability ≤ 1) :=
  C3_score_bounds none (some [("sadness", 50)])
    (fun m h => nomatch h)
    (by
      intro l h
      injection h with h
      subst h
      simp [List.lookup]
      norm_num)

/-- A non-empty emotions mapping carrying none of the scored keys, for
claim C10's counterexample. -/
def nonScoringEmotions : Emotions := [("contentment", 50)]

/-- C10 counterexample: a non-empty emotions mapping with none of the
scoring keys yields an emotional component of 0.3 (from the
`(1 - (happiness + excitement)) * 0.3` term with defaults 0), not the
claimed 0.0; its breakdown sub-mapping is present. -/
theorem C10_counterexample :
    (calculate_stuck_probability none (some nonScoringEmotions) 0.7 0.3).emotional_score = 0.3 ∧
    (calculate_stuck_probability none (some nonScoringEmotions) 0.7 0.3).breakdown_emotional
      = some ⟨0, 1, 0⟩ ∧
    (0.3 : ℚ) ≠ 0 := by
  refine ⟨?_, ?_, by norm_num⟩
  · have h : emotionalScoreOf (some nonScoringEmotions) = 0.3 := by
      simp [emotionalScoreOf, List.lookup, nonScoringEmotions]
      norm_num
    show round3 (emotionalScoreOf (some nonScoringEmotions)) = 0.3
    rw [h]
    norm_num [round3, roundHalfEven]
  · simp [calculate_stuck_probability, emoBreakdownOf, List.lookup, nonScoringEmotions]

/-- C10 (amended): the scorer branches on truthiness, so an empty mapping
behaves exactly like an absent argument (component 0.0, breakdown sub-map
omitted); a non-empty conversational mapping with none of the scoring keys
yields a 0.0 conversational component with its breakdown present, while a
non-empty emotions mapping with none of the scoring keys yields a 0.3
emotional component (not 0.0) with its breakdown present. -/
theorem C10_empty_mapping_truthiness :
    (∀ (e : Option Emotions) (cw ew : ℚ),
      calculate_stuck_probability (some []) e cw ew = calculate_stuck_probability none e cw ew) ∧
    (∀ (c : Option Signals) (cw ew : ℚ),
      calculate_stuck_probability c (some []) cw ew = calculate_stuck_probability c none cw ew) ∧
    convBreakdownOf (some []) = none ∧ emoBreakdownOf (some []) = none ∧
    (∀ m : Signals, m ≠ [] →
      (∀ p ∈ m, p.1 ≠ "vagueness_score" ∧ p.1 ≠ "specificity_score" ∧
        p.1 ≠ "hedging_count" ∧ p.1 ≠ "help_seeking") →
      conversationalScoreOf (some m) = 0 ∧ convBreakdownOf (some m) = some ⟨0, 0, 0, 0⟩) ∧
    (∀ l : Emotions, l ≠ [] →
      (∀ p ∈ l, p.1 ≠ "sadness" ∧ p.1 ≠ "frustration" ∧ p.1 ≠ "anxiety" ∧
        p.1 ≠ "happiness" ∧ p.1 ≠ "excitement") →
      emotionalScoreOf (some l) = 0.3 ∧ emoBreakdownOf (some l) = some ⟨0, 1, 0⟩) := by
  refine ⟨fun e cw ew => rfl, fun c cw ew => rfl, rfl, rfl, ?_, ?_⟩
  · intro m hm hkeys
    obtain ⟨a, as, rfl⟩ := List.exists_cons_of_ne_nil hm
    have hv : (a :: as).lookup "vagueness_score" = none :=
      lookup_eq_none_of_ne _ _ fun p hp => (hkeys p hp).1
    have hs : (a :: as).lookup "specificity_score" = none :=
      lookup_eq_none_of_ne _ _ fun p hp => (hkeys p hp).2.1
    have hh : (a :: as).lookup "hedging_count" = none :=
      lookup_eq_none_of_ne _ _ fun p hp => (hkeys p hp).2.2.1
    have hk : (a :: as).lookup "help_seeking" = none :=
      lookup_eq_none_of_ne _ _ fun p hp => (hkeys p hp).2.2.2
    refine ⟨?_, ?_⟩
    · simp [conversationalScoreOf, getNum, getBool, hv, hs, hh, hk]
      try norm_num [min_def]
    · simp [convBreakdownOf, getNum, getBool, hv, hs, hh, hk]
      try norm_num [min_def]
  · intro l hl hkeys
    obtain ⟨a, as, rfl⟩ := List.exists_cons_of_ne_nil hl
    have h1 : (a :: as).lookup "sadness" = none :=
      lookup_eq_none_of_ne _ _ fun p hp => (hkeys p hp).1
    have h2 : (a :: as).lookup "frustration" = none :=
      lookup_eq_none_of_ne _ _ fun p hp => (hkeys p hp).2.1
    have h3 : (a :: as).lookup "anxiety" = none :=
      lookup_eq_none_of_ne _ _ fun p hp => (hkeys p hp).2.2.1
    have h4 : (a :: as).lookup "happiness" = none :=
      lookup_eq_none_of_ne _ _ fun p hp => (hkeys p hp).2.2.2.1
    have h5 : (a :: as).lookup "excitement" = none :=
      lookup_eq_none_of_ne _ _ fun p hp => (hkeys p hp).2.2.2.2
    refine ⟨?_, ?_⟩
    · simp [emotionalScoreOf, h1, h2, h3, h4, h5]
      try norm_num [min_def]
    · simp [emoBreakdownOf, h1, h2, h3, h4, h5]
      try norm_num [min_def]

theorem C10_empty_mapping_truthiness_witness :
    conversationalScoreOf (some [("summary", SVal.num 1)]) = 0 ∧
    convBreakdownOf (some [("summary", SVal.num 1)]) = some ⟨0, 0, 0, 0⟩ :=
  C10_empty_mapping_truthiness.2.2.2.2.1 [("summary", SVal.num 1)] (by simp) (by simp)

/-! ## Daily records and emotion delta (`insight_engine.calculate_emotion_delta`) -/

/-- A standup record as consumed by the insight engine: the three dict
keys it reads, each possibly absent. -/
structure Standup where
  day_number : Option ℤ
  emotion_score : Option ℚ
  transcript : Option String
deriving DecidableEq

/-- `insight_engine.calculate_emotion_delta`: baseline is the first record
with `day_number == baseline_day` (fallback: the first element), current is
the last element, delta is current minus baseline `emotion_score`
(each read with default `0.0`). -/
def calculate_emotion_delta (standups : List Standup) (baseline_day : ℤ) : ℚ :=
  match standups with
  | [] => 0
  | s0 :: rest =>
    let baseline := ((s0 :: rest).find? (fun s => s.day_number == some baseline_day)).getD s0
    let current := (s0 :: rest).getLast (List.cons_ne_nil s0 rest)
    current.emotion_score.getD 0 - baseline.emotion_score.getD 0

/-- The spec's worked example: day 1 score 75, day 2 score 60, day 3
score 50. -/
def c5Example : List Standup :=
  [⟨some 1, some 75, none⟩, ⟨some 2, some 60, none⟩, ⟨some 3, some 50, none⟩]

/-- C5: `calculate_emotion_delta` returns 0.0 on an empty list; otherwise
the baseline is the record whose `day_number` equals `baseline_day` (the
fallback being the literal first element when none matches), the current
record is the literal last element, and the result is the current minus the
baseline emotion score; in particular the spec's example yields -25. -/
theorem C5_emotion_delta (b : ℤ) (l : List Standup) :
    calculate_emotion_delta [] b = 0 ∧
    (∀ s, l.find? (fun r => r.day_number == some b) = some s →
      ∀ h : l ≠ [],
      s.day_number = some b ∧ s ∈ l ∧
      calculate_emotion_delta l b =
        (l.getLast h).emotion_score.getD 0 - s.emotion_score.getD 0) ∧
    ((∀ s ∈ l, s.day_number ≠ some b) → ∀ h : l ≠ [],
      calculate_emotion_delta l b =
        (l.getLast h).emotion_score.getD 0 - (l.head h).emotion_score.getD 0) ∧
    calculate_emotion_delta c5Example 1 = -25 := by
  have hex : calculate_emotion_delta c5Example 1 = -25 := by
    show (50 : ℚ) - 75 = -25
    norm_num
  refine ⟨rfl, ?_, ?_, hex⟩
  · intro s hs h
    have hp := List.find?_some hs
    simp only [beq_iff_eq] at hp
    refine ⟨hp, List.mem_of_find?_eq_some hs, ?_⟩
    cases l with
    | nil => exact absurd rfl h
    | cons s0 rest =>
      show (_ : ℚ) - _ = _
      rw [hs]
      rfl
  · intro hnone h
    cases l with
    | nil => exact absurd rfl h
    | cons s0 rest =>
      have hfind : (s0 :: rest).find? (fun r => r.day_number == some b) = none := by
        rw [List.find?_eq_none]
        intro x hx
        simpa using hnone x hx
      show (_ : ℚ) - _ = _
      rw [hfind]
      rfl

theorem C5_emotion_delta_witness :
    (∀ s ∈ ([⟨some 2, some 60, none⟩] : List Standup), s.day_number ≠ some 1) ∧
    calculate_emotion_delta [⟨some 2, some 60, none⟩] 1 =
      (([⟨some 2, some 60, none⟩] : List Standup).getLast (by simp)).emotion_score.getD 0 -
      (([⟨some 2, some 60, none⟩] : List Standup).head (by simp)).emotion_score.getD 0 :=
  ⟨by simp, (C5_emotion_delta 1 [⟨some 2, some 60, none⟩]).2.2.1 (by simp) (by simp)⟩

/-! ## Keyword extraction (`insight_engine.extract_keywords`) -/

/-- A character matched by the regex `\w` (ASCII scope): alphanumeric or
underscore. -/
def isWordChar (c : Char) : Bool := c.isAlphanum || c == '_'

/-- Tokenizer for `re.findall(r'\b\w+\b', text)`: maximal runs of word
characters.  `acc` holds the current run, reversed. -/
def wordsAux : List Char → List Char → List String
  | [], acc => if acc.isEmpty then [] else [String.mk acc.reverse]
  | c :: cs, acc =>
    if isWordChar c then wordsAux cs (c :: acc)
    else if acc.isEmpty then wordsAux cs []
    else String.mk acc.reverse :: wordsAux cs []

/-- All `\w+` words of a string, in order. -/
def findWords (s : String) : List String := wordsAux s.data []

/-- The characters of `text.lower()` (ASCII scope). -/
def lowerChars (s : String) : List Char := s.data.map Char.toLower

/-- The stop-word set from `insight_engine.extract_keywords`. -/
def stopWords : List String :=
  ["the", "a", "an", "and", "or", "but", "in", "on", "at", "to", "for",
   "of", "with", "by", "from", "is", "was", "are", "been", "be", "have",
   "has", "had", "do", "does", "did", "will", "would", "could", "should",
   "can", "may", "might", "must", "that", "this", "these", "those",
   "i", "you", "he", "she", "it", "we", "they", "my", "your", "his",
   "her", "its", "our", "their", "me", "him", "us", "them", "myself",
   "got", "get", "now"]

/-- `insight_engine.extract_keywords`: lowercase, tokenize on word
boundaries, keep tokens of length at least `min_length` that are not stop
words. -/
def extract_keywords (text : String) (min_length : ℕ) : List String :=
  (wordsAux (lowerChars text) []).filter
    (fun w => decide (min_length ≤ w.length) && !(stopWords.contains w))

/-- The concatenation `all_keywords` built by the loop in
`find_repeated_keywords` (keywords of every record's transcript, default
empty transcript). -/
def allKeywords (standups : List Standup) : List String :=
  standups.foldl (fun acc s => acc ++ extract_keywords (s.transcript.getD "") 3) []

/-- One `Counter` increment: bump the entry for `k` (first occurrence wins)
or append `(k, 1)`. -/
def counterAdd (k : String) : List (String × ℕ) → List (String × ℕ)
  | [] => [(k, 1)]
  | (k', c) :: rest => if k' = k then (k', c + 1) :: rest else (k', c) :: counterAdd k rest

/-- Model of `collections.Counter(ks).items()`: fold the increments left to
right; keys end up in first-encounter order with their multiplicities. -/
def counterOf (ks : List String) : List (String × ℕ) :=
  ks.foldl (fun acc k => counterAdd k acc) []

/-- Insert into a descending-by-count list, after existing entries of equal
count (the unique stable position). -/
def insertByCount (p : String × ℕ) : List (String × ℕ) → List (String × ℕ)
  | [] => [p]
  | q :: qs => if p.2 < q.2 then q :: insertByCount p qs else p :: q :: qs

/-- Model of Python's stable `list.sort(key=lambda x: x[1], reverse=True)`:
the unique permutation that is descending by count and keeps the original
order of equal-count entries. -/
def sortByCountDesc : List (String × ℕ) → List (String × ℕ)
  | [] => []
  | p :: ps => insertByCount p (sortByCountDesc ps)

/-- `insight_engine.find_repeated_keywords`: count all keywords across the
records' transcripts, keep counts at least `min_occurrences`, sort
descending by count. -/
def find_repeated_keywords (standups : List Standup) (min_occurrences : ℕ) :
    List (String × ℕ) :=
  sortByCountDesc
    ((counterOf (allKeywords standups)).filter (fun p => decide (min_occurrences ≤ p.2)))

/-- First occurrence of each element, in order of first appearance:
the key order of `counterOf`. -/
def firstOccurrences : List String → List String
  | [] => []
  | k :: ks => k :: (firstOccurrences ks).filter (fun x => decide (x ≠ k))

theorem mem_firstOccurrences {x : String} : ∀ {l : List String},
    x ∈ firstOccurrences l ↔ x ∈ l := by
  intro l
  induction l with
  | nil => simp [firstOccurrences]
  | cons k ks ih =>
    simp only [firstOccurrences, List.mem_cons, List.mem_filter,
      decide_eq_true_eq, ih]
    constructor
    · rintro (rfl | ⟨hx, _⟩)
      · exact Or.inl rfl
      · exact Or.inr hx
    · rintro (rfl | hx)
      · exact Or.inl rfl
      · by_cases hk : x = k
        · exact Or.inl hk
        · exact Or.inr ⟨hx, hk⟩

theorem firstOccurrences_nodup : ∀ (l : List String), (firstOccurrences l).Nodup := by
  intro l
  induction l with
  | nil => simp [firstOccurrences]
  | cons k ks ih =>
    simp only [firstOccurrences, List.nodup_cons]
    refine ⟨fun hmem => ?_, ih.filter _⟩
    have := (List.mem_filter.mp hmem).2
    simp at this

theorem firstOccurrences_append_singleton (k : String) : ∀ (l : List String),
    firstOccurrences (l ++ [k]) =
      if k ∈ l then firstOccurrences l else firstOccurrences l ++ [k] := by
  intro l
  induction l with
  | nil => simp [firstOccurrences]
  | cons a t ih =>
    simp only [List.cons_append, firstOccurrences, List.append_eq]
    rw [ih]
    by_cases hka : k = a
    · subst hka
      rw [if_pos (List.mem_cons_self k t)]
      by_cases hkt : k ∈ t
      · rw [if_pos hkt]
      · rw [if_neg hkt, List.filter_append]
        simp
    · by_cases hkt : k ∈ t
      · rw [if_pos hkt, if_pos (List.mem_cons_of_mem a hkt)]
      · have hknott : k ∉ a :: t := by
          intro h
          rcases List.mem_cons.mp h with h' | h'
          · exact hka h'
          · exact hkt h'
        rw [if_neg hkt, if_neg hknott, List.filter_append]
        simp [hka]

theorem counterAdd_of_not_key (k : String) : ∀ (l : List (String × ℕ)),
    (∀ p ∈ l, p.1 ≠ k) → counterAdd k l = l ++ [(k, 1)] := by
  intro l
  induction l with
  | nil => intro _; rfl
  | cons a t ih =>
    intro h
    obtain ⟨a1, a2⟩ := a
    have ha : a1 ≠ k := h (a1, a2) (List.mem_cons_self _ _)
    simp only [counterAdd, if_neg ha, List.cons_append, List.cons.injEq, true_and]
    exact ih fun p hp => h p (List.mem_cons_of_mem _ hp)

theorem counterAdd_map_of_mem (k : String) (v : String → ℕ) : ∀ (l : List String),
    l.Nodup → k ∈ l →
    counterAdd k (l.map fun x => (x, v x)) =
      l.map (fun x => (x, if x = k then v x + 1 else v x)) := by
  intro l
  induction l with
  | nil => intro _ h; simp at h
  | cons a t ih =>
    intro hnd hmem
    by_cases hak : a = k
    · subst hak
      have hnotin : a ∉ t := (List.nodup_cons.mp hnd).1
      have hmap : List.map (fun x => (x, if x = a then v x + 1 else v x)) t
          = List.map (fun x => (x, v x)) t :=
        List.map_congr_left fun x hx => by
          have hx' : x ≠ a := fun h => hnotin (h ▸ hx)
          rw [if_neg hx']
      simp [List.map_cons, counterAdd, hmap]
    · have hkt : k ∈ t := by
        rcases List.mem_cons.mp hmem with h | h
        · exact absurd h.symm hak
        · exact h
      simp only [List.map_cons, counterAdd, if_neg hak]
      congr 1
      exact ih (List.nodup_cons.mp hnd).2 hkt

theorem counterAdd_firstOccurrences (pre : List String) (k : String) :
    counterAdd k ((firstOccurrences pre).map fun x => (x, pre.count x)) =
      (firstOccurrences (pre ++ [k])).map fun x => (x, (pre ++ [k]).count x) := by
  by_cases hk : k ∈ pre
  · rw [firstOccurrences_append_singleton, if_pos hk]
    have hnd := firstOccurrences_nodup pre
    have hkfo : k ∈ firstOccurrences pre := mem_firstOccurrences.mpr hk
    rw [counterAdd_map_of_mem k (fun x => pre.count x) _ hnd hkfo]
    refine List.map_congr_left fun x hx => ?_
    rw [List.count_append]
    by_cases hxk : x = k
    · subst hxk
      simp
    · simp [hxk]
  · rw [firstOccurrences_append_singleton, if_neg hk]
    have hkeys : ∀ p ∈ (firstOccurrences pre).map fun x => (x, pre.count x), p.1 ≠ k := by
      intro p hp
      obtain ⟨x, hx, rfl⟩ := List.mem_map.mp hp
      exact fun h => hk (mem_firstOccurrences.mp (h ▸ hx))
    rw [counterAdd_of_not_key k _ hkeys, List.map_append]
    congr 1
    · refine List.map_congr_left fun x hx => ?_
      have hxk : x ≠ k := fun h => hk (mem_firstOccurrences.mp (h ▸ hx))
      rw [List.count_append]
      simp [hxk]
    · have hcnt : pre.count k = 0 := by
        rw [List.count_eq_zero]
        exact hk
      simp [List.count_append, hcnt]

theorem counterOf_foldl (ks : List String) : ∀ (pre : List String),
    List.foldl (fun acc k => counterAdd k acc)
        ((firstOccurrences pre).map fun x => (x, pre.count x)) ks
      = (firstOccurrences (pre ++ ks)).map fun x => (x, (pre ++ ks).count x) := by
  induction ks with
  | nil => intro pre; simp
  | cons k ks ih =>
    intro pre
    simp only [List.foldl_cons]
    rw [counterAdd_firstOccurrences pre k, ih (pre ++ [k]), List.append_assoc,
      List.singleton_append]

/-- `counterOf ks` is the first-occurrence keys of `ks` paired with their
multiplicities. -/
theorem counterOf_eq (ks : List String) :
    counterOf ks = (firstOccurrences ks).map fun x => (x, ks.count x) := by
  have h := counterOf_foldl ks []
  simpa [counterOf, firstOccurrences] using h

theorem mem_insertByCount {a p : String × ℕ} : ∀ {l : List (String × ℕ)},
    a ∈ insertByCount p l ↔ a = p ∨ a ∈ l := by
  intro l
  induction l with
  | nil => simp [insertByCount]
  | cons q qs ih =>
    simp only [insertByCount]
    by_cases h : p.2 < q.2
    · rw [if_pos h]
      simp only [List.mem_cons, ih]
      tauto
    · rw [if_neg h]
      simp only [List.mem_cons]

theorem mem_sortByCountDesc {a : String × ℕ} : ∀ {l : List (String × ℕ)},
    a ∈ sortByCountDesc l ↔ a ∈ l := by
  intro l
  induction l with
  | nil => simp [sortByCountDesc]
  | cons p ps ih =>
    simp only [sortByCountDesc, mem_insertByCount, ih, List.mem_cons]

theorem pairwise_ge_insertByCount {p : String × ℕ} : ∀ {l : List (String × ℕ)},
    l.Pairwise (fun a b => b.2 ≤ a.2) →
    (insertByCount p l).Pairwise (fun a b => b.2 ≤ a.2) := by
  intro l
  induction l with
  | nil => intro _; simp [insertByCount]
  | cons q qs ih =>
    intro h
    obtain ⟨hq, hqs⟩ := List.pairwise_cons.mp h
    simp only [insertByCount]
    by_cases hc : p.2 < q.2
    · rw [if_pos hc]
      refine List.pairwise_cons.mpr ⟨?_, ih hqs⟩
      intro b hb
      rcases mem_insertByCount.mp hb with rfl | hb'
      · exact le_of_lt hc
      · exact hq b hb'
    · rw [if_neg hc]
      push_neg at hc
      refine List.pairwise_cons.mpr ⟨?_, h⟩
      intro b hb
      rcases List.mem_cons.mp hb with rfl | hb'
      · exact hc
      · exact le_trans (hq b hb') hc

theorem sortByCountDesc_pairwise_ge (l : List (String × ℕ)) :
    (sortByCountDesc l).Pairwise (fun a b => b.2 ≤ a.2) := by
  induction l with
  | nil => simp [sortByCountDesc]
  | cons p ps ih => exact pairwise_ge_insertByCount ih

theorem pairwise_ord_insertByCount (T : String × ℕ → String × ℕ → Prop)
    (p : String × ℕ) : ∀ (l : List (String × ℕ)),
    l.Pairwise (fun a b => b.2 < a.2 ∨ (b.2 = a.2 ∧ T a b)) →
    (∀ q ∈ l, q.2 = p.2 → T p q) →
    (insertByCount p l).Pairwise (fun a b => b.2 < a.2 ∨ (b.2 = a.2 ∧ T a b)) := by
  intro l
  induction l with
  | nil =>
    intro _ _
    simp [insertByCount]
  | cons q qs ih =>
    intro h hT
    obtain ⟨hq, hqs⟩ := List.pairwise_cons.mp h
    simp only [insertByCount]
    by_cases hc : p.2 < q.2
    · rw [if_pos hc]
      refine List.pairwise_cons.mpr ⟨?_, ?_⟩
      · intro b hb
        rcases mem_insertByCount.mp hb with rfl | hb'
        · exact Or.inl hc
        · exact hq b hb'
      · exact ih hqs fun r hr => hT r (List.mem_cons_of_mem q hr)
    · rw [if_neg hc]
      push_neg at hc
      refine List.pairwise_cons.mpr ⟨?_, h⟩
      intro b hb
      rcases List.mem_cons.mp hb with rfl | hb'
      · rcases lt_or_eq_of_le hc with hlt | heq
        · exact Or.inl hlt
        · exact Or.inr ⟨heq, hT b (List.mem_cons_self b qs) heq⟩
      · rcases hq b hb' with hlt | ⟨heq, _⟩
        · exact Or.inl (lt_of_lt_of_le hlt hc)
        · rcases lt_or_eq_of_le hc with hlt' | heq'
          · exact Or.inl (heq ▸ hlt')
          · exact Or.inr ⟨heq.trans heq', hT b (List.mem_cons_of_mem q hb') (heq.trans heq')⟩

theorem sortByCountDesc_pairwise_ord (T : String × ℕ → String × ℕ → Prop)
    (l : List (String × ℕ)) (h : l.Pairwise T) :
    (sortByCountDesc l).Pairwise (fun a b => b.2 < a.2 ∨ (b.2 = a.2 ∧ T a b)) := by
  induction l with
  | nil => simp [sortByCountDesc]
  | cons p ps ih =>
    obtain ⟨hp, hps⟩ := List.pairwise_cons.mp h
    exact pairwise_ord_insertByCount T p (sortByCountDesc ps) (ih hps)
      fun q hq _ => hp q (mem_sortByCountDesc.mp hq)

theorem fo_pairwise_idx (ks : List String) :
    (firstOccurrences ks).Pairwise (fun a b => ks.indexOf a < ks.indexOf b) := by
  induction ks with
  | nil => simp [firstOccurrences]
  | cons k t ih =>
    simp only [firstOccurrences]
    refine List.pairwise_cons.mpr ⟨?_, ?_⟩
    · intro b hb
      have hbne : b ≠ k := by
        have := (List.mem_filter.mp hb).2
        simpa using this
      rw [List.indexOf_cons_self, List.indexOf_cons_ne t hbne.symm]
      exact Nat.succ_pos _
    · refine List.Pairwise.imp_of_mem ?_ (ih.filter _)
      intro a b ha hb hab
      have hane : a ≠ k := by
        have := (List.mem_filter.mp ha).2
        simpa using this
      have hbne : b ≠ k := by
        have := (List.mem_filter.mp hb).2
        simpa using this
      rw [List.indexOf_cons_ne t hane.symm, List.indexOf_cons_ne t hbne.symm]
      exact Nat.succ_lt_succ hab

/-- The pre-sort list (counter entries filtered by the occurrence
threshold) is ordered by first-occurrence position of its keys. -/
theorem preSort_pairwise_idx (ks : List String) (m : ℕ) :
    ((counterOf ks).filter (fun p => decide (m ≤ p.2))).Pairwise
      (fun a b => ks.indexOf a.1 < ks.indexOf b.1) := by
  refine List.Pairwise.filter _ ?_
  rw [counterOf_eq, List.pairwise_map]
  exact (fo_pairwise_idx ks).imp fun h => h

/-- Three records each mentioning "auth" once (other tokens are stop
words). -/
def c6Three : List Standup :=
  [⟨none, none, some "auth to me"⟩, ⟨none, none, some "auth to me"⟩,
   ⟨none, none, some "auth to me"⟩]

/-- Two records each mentioning "auth" once. -/
def c6Two : List Standup :=
  [⟨none, none, some "auth to me"⟩, ⟨none, none, some "auth to me"⟩]

/-- C6: `find_repeated_keywords` returns exactly the keywords (lowercased,
stop-word-filtered tokens of length at least 3; counted once per instance
across all transcripts) whose total count reaches `min_occurrences`, each
paired with its total count, sorted descending by count with ties in
first-insertion order; three records containing "auth" once each give
`[("auth", 3)]` at threshold 3, two give `[]`. -/
theorem C6_find_repeated_keywords (standups : List Standup) (m : ℕ) :
    (∀ kw c, (kw, c) ∈ find_repeated_keywords standups m ↔
      (0 < c ∧ c = (allKeywords standups).count kw ∧ m ≤ c)) ∧
    (find_repeated_keywords standups m).Pairwise (fun a b => b.2 ≤ a.2) ∧
    (find_repeated_keywords standups m).Pairwise (fun a b => a.2 = b.2 →
      (allKeywords standups).indexOf a.1 < (allKeywords standups).indexOf b.1) ∧
    find_repeated_keywords c6Three 3 = [("auth", 3)] ∧
    find_repeated_keywords c6Two 3 = [] := by
  refine ⟨?_, sortByCountDesc_pairwise_ge _, ?_, by decide, by decide⟩
  · intro kw c
    rw [find_repeated_keywords, mem_sortByCountDesc, List.mem_filter,
      counterOf_eq, List.mem_map]
    simp only [decide_eq_true_eq]
    constructor
    · rintro ⟨⟨x, hx, hxe⟩, hm⟩
      injection hxe with h1 h2
      have hmem : x ∈ allKeywords standups := mem_firstOccurrences.mp hx
      refine ⟨?_, ?_, hm⟩
      · rw [← h2]
        exact List.count_pos_iff.mpr hmem
      · rw [← h2, ← h1]
    · rintro ⟨hpos, rfl, hm⟩
      have hmem : kw ∈ allKeywords standups := List.count_pos_iff.mp hpos
      exact ⟨⟨kw, mem_firstOccurrences.mpr hmem, rfl⟩, hm⟩
  · have h := sortByCountDesc_pairwise_ord
      (fun a b => (allKeywords standups).indexOf a.1 < (allKeywords standups).indexOf b.1)
      _ (preSort_pairwise_idx (allKeywords standups) m)
    refine h.imp_of_mem ?_
    intro a b _ _ hab heq
    rcases hab with hlt | ⟨_, hT⟩
    · exact absurd (heq ▸ hlt) (lt_irrefl _)
    · exact hT

theorem C6_find_repeated_keywords_witness :
    ("auth", 3) ∈ find_repeated_keywords c6Three 3 ↔
      (0 < 3 ∧ 3 = (allKeywords c6Three).count "auth" ∧ 3 ≤ 3) :=
  (C6_find_repeated_keywords c6Three 3).1 "auth" 3

/-! ## Stuck-pattern detection (`insight_engine.detect_stuck_pattern`) -/

/-- The dict returned by `detect_stuck_pattern` when a pattern is
present. -/
structure StuckInfo where
  is_stuck : Bool
  repeated_keyword : String
  keyword_count : ℕ
  emotion_delta : ℚ
  days_affected : ℕ
  recommendation : String
deriving DecidableEq

/-- `insight_engine.detect_stuck_pattern`: fewer than 3 records is `none`;
otherwise a pattern is reported iff some keyword repeats at least
`min_keyword_occurrences` times (the top one is reported) and the emotion
delta from day 1 declines by at least `emotion_decline_threshold`. -/
def detect_stuck_pattern (standups : List Standup) (min_keyword_occurrences : ℕ)
    (emotion_decline_threshold : ℚ) : Option StuckInfo :=
  if standups.length < 3 then none
  else
    match find_repeated_keywords standups min_keyword_occurrences with
    | [] => none
    | (kw, c) :: _ =>
      if calculate_emotion_delta standups 1 ≤ -emotion_decline_threshold then
        some ⟨true, kw, c, calculate_emotion_delta standups 1, standups.length,
          "Consider pairing session or escalation"⟩
      else none

/-- C4: `detect_stuck_pattern` is absent on fewer than 3 records regardless
of content; on at least 3 records it is present iff the repeated-keyword
list is non-empty and the emotion delta is at most the negated threshold;
and when present it carries the highest-count repeated keyword, its count,
the computed delta, the record count as `days_affected`, `is_stuck = true`
and the fixed recommendation. -/
theorem C4_detect_stuck_pattern (standups : List Standup) (m : ℕ) (t : ℚ) :
    (standups.length < 3 → detect_stuck_pattern standups m t = none) ∧
    (3 ≤ standups.length →
      ((detect_stuck_pattern standups m t).isSome ↔
        find_repeated_keywords standups m ≠ [] ∧
        calculate_emotion_delta standups 1 ≤ -t)) ∧
    (3 ≤ standups.length → ∀ kw c rest,
      find_repeated_keywords standups m = (kw, c) :: rest →
      calculate_emotion_delta standups 1 ≤ -t →
      detect_stuck_pattern standups m t =
        some ⟨true, kw, c, calculate_emotion_delta standups 1, standups.length,
          "Consider pairing session or escalation"⟩ ∧
      (∀ p ∈ find_repeated_keywords standups m, p.2 ≤ c)) := by
  refine ⟨?_, ?_, ?_⟩
  · intro h
    simp [detect_stuck_pattern, if_pos h]
  · intro h
    have hnl : ¬ standups.length < 3 := not_lt.mpr h
    rw [detect_stuck_pattern, if_neg hnl]
    cases hre : find_repeated_keywords standups m with
    | nil => simp [hre]
    | cons p ps =>
      obtain ⟨kw, c⟩ := p
      by_cases hd : calculate_emotion_delta standups 1 ≤ -t
      · simp [hre, hd]
      · simp [hre, hd]
  · intro h kw c rest hre hd
    have hnl : ¬ standups.length < 3 := not_lt.mpr h
    have hpair : (find_repeated_keywords standups m).Pairwise (fun a b => b.2 ≤ a.2) :=
      sortByCountDesc_pairwise_ge _
    rw [hre] at hpair
    obtain ⟨hhead, _⟩ := List.pairwise_cons.mp hpair
    refine ⟨?_, ?_⟩
    · rw [detect_stuck_pattern, if_neg hnl, hre]
      dsimp only
      rw [if_pos hd]
    · intro p hp
      rw [hre] at hp
      rcases List.mem_cons.mp hp with rfl | hp'
      · exact le_refl _
      · exact hhead p hp'

/-- Three declining days all mentioning "auth". -/
def c4Example : List Standup :=
  [⟨some 1, some 75, some "auth to me"⟩, ⟨some 2, some 60, some "auth to me"⟩,
   ⟨some 3, some 50, some "auth to me"⟩]

theorem C4_detect_stuck_pattern_witness :
    detect_stuck_pattern c4Example 3 10 =
      some ⟨true, "auth", 3, calculate_emotion_delta c4Example 1, 3,
        "Consider pairing session or escalation"⟩ ∧
    (∀ p ∈ find_repeated_keywords c4Example 3, p.2 ≤ 3) :=
  (C4_detect_stuck_pattern c4Example 3 10).2.2 (by decide) "auth" 3 [] (by decide)
    (by
      show (50 : ℚ) - 75 ≤ -10
      norm_num)

/-! ## Emotion extraction (`analyze_audio.extract_emotion_data`) -/

/-- The fields of the Pulse API response read by
`extract_emotion_data`. -/
structure ApiResponse where
  transcription : Option String
  emotions : Option (List (String × ℚ))

/-- The dict returned by `extract_emotion_data`. -/
structure EmotionData where
  transcript : String
  emotions : List (String × ℚ)
  dominant_emotion : String
  emotion_score : ℚ

/-- Model of Python `max(items, key=lambda x: x[1])`: scan left to right,
replacing the current best only on a strictly larger key, so the first
maximal item wins. -/
def maxByValue (e : String × ℚ) (l : List (String × ℚ)) : String × ℚ :=
  l.foldl (fun best x => if best.2 < x.2 then x else best) e

/-- `analyze_audio.extract_emotion_data`: transcription defaulted to "",
emotions to {}; the dominant emotion is the argmax entry (first maximal on
ties, "unknown" with value 0.0 when the mapping is empty or absent), and
`emotion_score` is its value times 100. -/
def extract_emotion_data (resp : ApiResponse) : EmotionData :=
  let transcript := resp.transcription.getD ""
  let emotions := resp.emotions.getD []
  match emotions with
  | [] => ⟨transcript, emotions, "unknown", 0 * 100⟩
  | e :: rest =>
    let dominant := maxByValue e rest
    ⟨transcript, emotions, dominant.1, dominant.2 * 100⟩

theorem maxByValue_of_not_gt (e : String × ℚ) : ∀ (l : List (String × ℚ)),
    (∀ x ∈ l, ¬ e.2 < x.2) → maxByValue e l = e := by
  intro l
  induction l with
  | nil => intro _; rfl
  | cons x xs ih =>
    intro h
    have hx : ¬ e.2 < x.2 := h x (List.mem_cons_self _ _)
    simp only [maxByValue, List.foldl_cons, if_neg hx]
    exact ih fun y hy => h y (List.mem_cons_of_mem _ hy)

theorem maxByValue_unique_max (k : String) (v : ℚ) : ∀ (l : List (String × ℚ)) (e : String × ℚ),
    e.2 < v → (k, v) ∈ l → (∀ x ∈ l, x ≠ (k, v) → x.2 < v) →
    maxByValue e l = (k, v) := by
  intro l
  induction l with
  | nil =>
    intro e _ h
    simp at h
  | cons x xs ih =>
    intro e he hmem hmax
    by_cases hx : x = (k, v)
    · subst hx
      simp only [maxByValue, List.foldl_cons, if_pos he]
      have : ∀ y ∈ xs, ¬ (k, v).2 < y.2 := by
        intro y hy
        by_cases hyk : y = (k, v)
        · subst hyk
          exact lt_irrefl _
        · exact not_lt.mpr (le_of_lt (hmax y (List.mem_cons_of_mem _ hy) hyk))
      exact maxByValue_of_not_gt _ xs this
    · have hxlt : x.2 < v := hmax x (List.mem_cons_self _ _) hx
      have hmem' : (k, v) ∈ xs := by
        rcases List.mem_cons.mp hmem with h | h
        · exact absurd h.symm hx
        · exact h
      have hmax' : ∀ y ∈ xs, y ≠ (k, v) → y.2 < v :=
        fun y hy => hmax y (List.mem_cons_of_mem _ hy)
      simp only [maxByValue, List.foldl_cons]
      by_cases hcond : e.2 < x.2
      · rw [if_pos hcond]
        exact ih x hxlt hmem' hmax'
      · rw [if_neg hcond]
        exact ih e he hmem' hmax'

/-- C9: for every emotion mapping with a unique maximum value, the derived
`dominant_emotion` is the key holding that maximum and `emotion_score` is
that value times 100. -/
theorem C9_dominant_emotion (resp : ApiResponse) (l : List (String × ℚ))
    (k : String) (v : ℚ)
    (hl : resp.emotions = some l) (hmem : (k, v) ∈ l)
    (hmax : ∀ x ∈ l, x ≠ (k, v) → x.2 < v) :
    (extract_emotion_data resp).dominant_emotion = k ∧
    (extract_emotion_data resp).emotion_score = v * 100 := by
  cases l with
  | nil => simp at hmem
  | cons e rest =>
    have hdom : maxByValue e rest = (k, v) := by
      by_cases hek : e = (k, v)
      · have h0 : maxByValue e rest = e := by
          refine maxByValue_of_not_gt e rest fun y hy => ?_
          by_cases hyk : y = (k, v)
          · rw [hek, hyk]
            exact lt_irrefl _
          · rw [hek]
            exact not_lt.mpr (le_of_lt (hmax y (List.mem_cons_of_mem _ hy) hyk))
        rw [h0, hek]
      · have hmem' : (k, v) ∈ rest := by
          rcases List.mem_cons.mp hmem with h | h
          · exact absurd h.symm hek
          · exact h
        exact maxByValue_unique_max k v rest e
          (hmax e (List.mem_cons_self _ _) hek) hmem'
          (fun y hy => hmax y (List.mem_cons_of_mem _ hy))
    have h1 : (extract_emotion_data resp).dominant_emotion = (maxByValue e rest).1 := by
      rw [extract_emotion_data, hl]
      rfl
    have h2 : (extract_emotion_data resp).emotion_score = (maxByValue e rest).2 * 100 := by
      rw [extract_emotion_data, hl]
      rfl
    rw [h1, h2, hdom]
    exact ⟨rfl, rfl⟩

/-- The spec's example mapping: happiness 0.8 dominates. -/
def c9Response : ApiResponse :=
  ⟨some "t", some [("happiness", 0.8), ("sadness", 0.15), ("anxiety", 0.05)]⟩

theorem C9_dominant_emotion_witness :
    (extract_emotion_data c9Response).dominant_emotion = "happiness" ∧
    (extract_emotion_data c9Response).emotion_score = 0.8 * 100 :=
  C9_dominant_emotion c9Response [("happiness", 0.8), ("sadness", 0.15), ("anxiety", 0.05)]
    "happiness" 0.8 rfl (by simp)
    (by
      intro x hx hne
      rcases List.mem_cons.mp hx with rfl | hx'
      · exact absurd rfl hne
      · rcases List.mem_cons.mp hx' with rfl | hx''
        · norm_num
        · rcases List.mem_cons.mp hx'' with rfl | hx'''
          · norm_num
          · simp at hx''')

/-! ## Record store (`storage.StandupStorage`) -/

/-- JSON-style values stored in a standup record. -/
inductive JVal where
  | int (n : ℤ)
  | str (s : String)
  | num (q : ℚ)
  | bool (b : Bool)
  | null
deriving DecidableEq

/-- A persisted standup record: a dict, modelled as an association list in
insertion order with first-match lookup. -/
abbrev Rec := List (String × JVal)

/-- Python dict assignment `d[k] = v`: replace the first binding in place,
else append. -/
def pySet (k : String) (v : JVal) : Rec → Rec
  | [] => [(k, v)]
  | (k', v') :: rest => if k' = k then (k, v) :: rest else (k', v') :: pySet k v rest

/-- `s.get('id', 0)` as used in the id-max computation. -/
def getId (r : Rec) : ℤ :=
  match r.lookup "id" with
  | some (.int n) => n
  | _ => 0

/-- Python `max(list, default=d)`. -/
def pyMaxD (l : List ℤ) (d : ℤ) : ℤ :=
  match l with
  | [] => d
  | x :: xs => xs.foldl max x

/-- `storage.save_standup`, with the current UTC timestamp passed in as
`now`: assign id = (max existing id, default 0) + 1, add `created_at` if
absent, append, rewrite the whole list; returns the saved record and the
new store contents. -/
def save_standup (now : String) (standups : List Rec) (standup : Rec) : Rec × List Rec :=
  let next_id := pyMaxD (standups.map getId) 0 + 1
  let s1 := pySet "id" (.int next_id) standup
  let s2 := if (s1.lookup "created_at").isNone then pySet "created_at" (.str now) s1 else s1
  (s2, standups ++ [s2])

/-- `storage.get_by_id`: linear scan for the first record whose `'id'`
equals the argument. -/
def get_by_id (standups : List Rec) (standup_id : ℤ) : Option Rec :=
  standups.find? (fun s => s.lookup "id" == some (JVal.int standup_id))

theorem lookup_pySet_self (k : String) (v : JVal) : ∀ (r : Rec),
    (pySet k v r).lookup k = some v := by
  intro r
  induction r with
  | nil => simp [pySet, List.lookup]
  | cons a rest ih =>
    obtain ⟨k', v'⟩ := a
    by_cases h : k' = k
    · simp [pySet, if_pos h, List.lookup]
    · simp only [pySet, if_neg h, List.lookup]
      have : (k == k') = false := by
        simp [beq_eq_false_iff_ne]
        exact fun he => h he.symm
      rw [this]
      exact ih

theorem lookup_pySet_ne (k k' : String) (v : JVal) (hne : k' ≠ k) : ∀ (r : Rec),
    (pySet k v r).lookup k' = r.lookup k' := by
  intro r
  induction r with
  | nil =>
    have : (k' == k) = false := by simp [beq_eq_false_iff_ne, hne]
    simp [pySet, List.lookup, this]
  | cons a rest ih =>
    obtain ⟨k0, v0⟩ := a
    by_cases h : k0 = k
    · subst h
      have h1 : (k' == k0) = false := by simp [beq_eq_false_iff_ne, hne]
      simp [pySet, List.lookup, h1]
    · simp only [pySet, if_neg h, List.lookup]
      cases hkk : (k' == k0)
      · exact ih
      · rfl

theorem le_foldl_max (b : ℤ) : ∀ (l : List ℤ), b ≤ l.foldl max b := by
  intro l
  induction l generalizing b with
  | nil => exact le_refl b
  | cons x xs ih => exact le_trans (le_max_left b x) (ih (max b x))

theorem mem_le_foldl_max (x : ℤ) : ∀ (l : List ℤ) (b : ℤ), x ∈ l → x ≤ l.foldl max b := by
  intro l
  induction l with
  | nil => intro b h; simp at h
  | cons y ys ih =>
    intro b h
    rcases List.mem_cons.mp h with rfl | h'
    · exact le_trans (le_max_right b x) (le_foldl_max _ ys)
    · exact ih (max b y) h'

theorem mem_le_pyMaxD (x : ℤ) (l : List ℤ) (d : ℤ) (h : x ∈ l) : x ≤ pyMaxD l d := by
  cases l with
  | nil => simp at h
  | cons y ys =>
    rcases List.mem_cons.mp h with rfl | h'
    · exact le_foldl_max x ys
    · exact mem_le_foldl_max x ys y h'

theorem find?_append_of_none {α : Type} (p : α → Bool) (l₂ : List α) :
    ∀ (l₁ : List α), (∀ x ∈ l₁, p x = false) →
    (l₁ ++ l₂).find? p = l₂.find? p := by
  intro l₁
  induction l₁ with
  | nil => intro _; rfl
  | cons a t ih =>
    intro h
    have ha : p a = false := h a (List.mem_cons_self _ _)
    simp only [List.cons_append, List.find?, ha]
    exact ih fun x hx => h x (List.mem_cons_of_mem _ hx)

/-- C7: a record saved and then retrieved by its assigned id comes back
with every original field unchanged (the id field being set and
`created_at` being added only when absent), the id being the maximum
existing id (default 0) plus one. -/
theorem C7_save_roundtrip (standups : List Rec) (standup : Rec) (now : String)
    (hids : ∀ s ∈ standups, ∀ v, s.lookup "id" = some v → ∃ n : ℤ, v = JVal.int n) :
    ∃ r, get_by_id (save_standup now standups standup).2
        (pyMaxD (standups.map getId) 0 + 1) = some r ∧
      r = (save_standup now standups standup).1 ∧
      r.lookup "id" = some (.int (pyMaxD (standups.map getId) 0 + 1)) ∧
      (∀ k, k ≠ "id" → k ≠ "created_at" → r.lookup k = standup.lookup k) ∧
      (∀ v, standup.lookup "created_at" = some v → r.lookup "created_at" = some v) ∧
      (standup.lookup "created_at" = none → r.lookup "created_at" = some (.str now)) := by
  set assigned := pyMaxD (standups.map getId) 0 + 1 with hassigned
  set s1 := pySet "id" (.int assigned) standup with hs1
  set s2 := (if (s1.lookup "created_at").isNone then pySet "created_at" (.str now) s1 else s1)
    with hs2
  have hid1 : s1.lookup "id" = some (.int assigned) := lookup_pySet_self _ _ _
  have hid2 : s2.lookup "id" = some (.int assigned) := by
    rw [hs2]
    by_cases hc : (s1.lookup "created_at").isNone
    · rw [if_pos hc, lookup_pySet_ne _ _ _ (by decide)]
      exact hid1
    · rw [if_neg hc]
      exact hid1
  have hold : ∀ s ∈ standups, (s.lookup "id" == some (JVal.int assigned)) = false := by
    intro s hs
    cases hv : s.lookup "id" with
    | none => simp
    | some v =>
      obtain ⟨n, rfl⟩ := hids s hs v hv
      have hgid : getId s = n := by rw [getId, hv]
      have hmem : n ∈ standups.map getId := hgid ▸ List.mem_map_of_mem getId hs
      have hle : n ≤ pyMaxD (standups.map getId) 0 := mem_le_pyMaxD n _ 0 hmem
      have hne : JVal.int n ≠ JVal.int assigned := by
        intro h
        injection h with h
        omega
      simp [hne]
  have hfind : get_by_id (standups ++ [s2]) assigned = some s2 := by
    rw [get_by_id, find?_append_of_none _ _ _ hold]
    simp [List.find?, hid2]
  have hpres : ∀ k, k ≠ "id" → k ≠ "created_at" → s2.lookup k = standup.lookup k := by
    intro k hk1 hk2
    rw [hs2]
    by_cases hc : (s1.lookup "created_at").isNone
    · rw [if_pos hc, lookup_pySet_ne _ _ _ hk2, hs1, lookup_pySet_ne _ _ _ hk1]
    · rw [if_neg hc, hs1, lookup_pySet_ne _ _ _ hk1]
  have hca1 : ∀ v, standup.lookup "created_at" = some v →
      s2.lookup "created_at" = some v := by
    intro v hv
    have h1 : s1.lookup "created_at" = some v := by
      rw [hs1, lookup_pySet_ne _ _ _ (by decide)]
      exact hv
    rw [hs2, h1]
    simp only [Option.isNone_some, Bool.false_eq_true, if_false]
    exact h1
  have hca2 : standup.lookup "created_at" = none →
      s2.lookup "created_at" = some (.str now) := by
    intro hv
    have h1 : s1.lookup "created_at" = none := by
      rw [hs1, lookup_pySet_ne _ _ _ (by decide)]
      exact hv
    rw [hs2, h1]
    simp only [Option.isNone_none, if_true]
    exact lookup_pySet_self _ _ _
  exact ⟨s2, hfind, rfl, hid2, hpres, hca1, hca2⟩

theorem C7_save_roundtrip_witness :
    ∃ r, get_by_id (save_standup "T" [] [("date", JVal.str "2026-01-01")]).2
        (pyMaxD (([] : List Rec).map getId) 0 + 1) = some r ∧
      r = (save_standup "T" [] [("date", JVal.str "2026-01-01")]).1 ∧
      r.lookup "id" = some (.int (pyMaxD (([] : List Rec).map getId) 0 + 1)) ∧
      (∀ k, k ≠ "id" → k ≠ "created_at" →
        r.lookup k = List.lookup k [("date", JVal.str "2026-01-01")]) ∧
      (∀ v, List.lookup "created_at" [("date", JVal.str "2026-01-01")] = some v →
        r.lookup "created_at" = some v) ∧
      (List.lookup "created_at" [("date", JVal.str "2026-01-01")] = none →
        r.lookup "created_at" = some (.str "T")) :=
  C7_save_roundtrip [] [("date", JVal.str "2026-01-01")] "T" (by simp)

/-! ## JSON loading (`storage.load_standups` and Python `json.load`) -/

/-- JSON values as produced by `json.load`. -/
inductive Json where
  | null
  | bool (b : Bool)
  | num (q : ℚ)
  | str (s : String)
  | arr (elems : List Json)
  | obj (fields : List (String × Json))

/-- JSON whitespace. -/
def isJsonWs (c : Char) : Bool := c = ' ' || c = '\t' || c = '\n' || c = '\r'

/-- Skip leading JSON whitespace. -/
def skipWs (s : List Char) : List Char := s.dropWhile isJsonWs

/-- Hexadecimal digit value. -/
def hexVal (c : Char) : Option ℕ :=
  if '0' ≤ c ∧ c ≤ '9' then some (c.toNat - '0'.toNat)
  else if 'a' ≤ c ∧ c ≤ 'f' then some (c.toNat - 'a'.toNat + 10)
  else if 'A' ≤ c ∧ c ≤ 'F' then some (c.toNat - 'A'.toNat + 10)
  else none

/-- Decimal digits to a natural number. -/
def digitsToNat (ds : List Char) : ℕ :=
  ds.foldl (fun n c => n * 10 + (c.toNat - '0'.toNat)) 0

/-- Parse the body of a JSON string after the opening quote. -/
def parseStringBody : List Char → List Char → Except String (String × List Char)
  | [], _ => .error "Unterminated string"
  | c :: rest, acc =>
    if c = '"' then .ok (String.mk acc.reverse, rest)
    else if c = '\\' then
      match rest with
      | [] => .error "Unterminated string"
      | e :: r2 =>
        if e = '"' then parseStringBody r2 ('"' :: acc)
        else if e = '\\' then parseStringBody r2 ('\\' :: acc)
        else if e = '/' then parseStringBody r2 ('/' :: acc)
        else if e = 'b' then parseStringBody r2 (Char.ofNat 8 :: acc)
        else if e = 'f' then parseStringBody r2 (Char.ofNat 12 :: acc)
        else if e = 'n' then parseStringBody r2 ('\n' :: acc)
        else if e = 'r' then parseStringBody r2 ('\r' :: acc)
        else if e = 't' then parseStringBody r2 ('\t' :: acc)
        else if e = 'u' then
          match r2 with
          | h1 :: h2 :: h3 :: h4 :: r3 =>
            match hexVal h1, hexVal h2, hexVal h3, hexVal h4 with
            | some a, some b, some c3, some d =>
              parseStringBody r3 (Char.ofNat (((a * 16 + b) * 16 + c3) * 16 + d) :: acc)
            | _, _, _, _ => .error "Invalid \\uXXXX escape"
          | _ => .error "Invalid \\uXXXX escape"
        else .error "Invalid \\escape"
    else parseStringBody rest (c :: acc)

/-- Parse a JSON number (sign, integer part, optional fraction and
exponent; a fraction or exponent without digits is left unconsumed, as in
the CPython tokenizer regex). -/
def parseNumber (s : List Char) : Except String (Json × List Char) :=
  let (neg, s1) : Bool × List Char := match s with
    | '-' :: r => (true, r)
    | _ => (false, s)
  let intDigits := s1.takeWhile Char.isDigit
  if intDigits.isEmpty then .error "Expecting value"
  else
    let s2 := s1.dropWhile Char.isDigit
    let (fracDigits, s3) : List Char × List Char := match s2 with
      | '.' :: r =>
        let fd := r.takeWhile Char.isDigit
        if fd.isEmpty then ([], s2) else (fd, r.dropWhile Char.isDigit)
      | _ => ([], s2)
    let (expNeg, expDigits, s4) : Bool × List Char × List Char := match s3 with
      | 'e' :: '+' :: r | 'E' :: '+' :: r =>
        let ed := r.takeWhile Char.isDigit
        if ed.isEmpty then (false, [], s3) else (false, ed, r.dropWhile Char.isDigit)
      | 'e' :: '-' :: r | 'E' :: '-' :: r =>
        let ed := r.takeWhile Char.isDigit
        if ed.isEmpty then (false, [], s3) else (true, ed, r.dropWhile Char.isDigit)
      | 'e' :: r | 'E' :: r =>
        let ed := r.takeWhile Char.isDigit
        if ed.isEmpty then (false, [], s3) else (false, ed, r.dropWhile Char.isDigit)
      | _ => (false, [], s3)
    let mantissa : ℚ :=
      (digitsToNat intDigits : ℚ) + (digitsToNat fracDigits : ℚ) / (10 ^ fracDigits.length)
    let signed := if neg then -mantissa else mantissa
    let expo : ℤ := if expNeg then -(digitsToNat expDigits : ℤ) else (digitsToNat expDigits : ℤ)
    .ok (.num (signed * (10 : ℚ) ^ expo), s4)

mutual

/-- Parse one JSON value (fuel-bounded recursive descent, modelling
`json.loads`; an empty or whitespace-only input fails with
"Expecting value"). -/
def parseValue : ℕ → List Char → Except String (Json × List Char)
  | 0, _ => .error "Maximum recursion depth exceeded"
  | fuel + 1, s =>
    match skipWs s with
    | [] => .error "Expecting value"
    | c :: rest =>
      if c = 'n' then
        match rest with
        | 'u' :: 'l' :: 'l' :: r => .ok (.null, r)
        | _ => .error "Expecting value"
      else if c = 't' then
        match rest with
        | 'r' :: 'u' :: 'e' :: r => .ok (.bool true, r)
        | _ => .error "Expecting value"
      else if c = 'f' then
        match rest with
        | 'a' :: 'l' :: 's' :: 'e' :: r => .ok (.bool false, r)
        | _ => .error "Expecting value"
      else if c = '"' then
        match parseStringBody rest [] with
        | .error e => .error e
        | .ok (str, r) => .ok (.str str, r)
      else if c = '[' then
        match skipWs rest with
        | ']' :: r => .ok (.arr [], r)
        | r => parseArrayItems fuel r []
      else if c = '{' then
        match skipWs rest with
        | '}' :: r => .ok (.obj [], r)
        | r => parseObjItems fuel r []
      else if c = '-' || c.isDigit then parseNumber (c :: rest)
      else .error "Expecting value"

/-- Parse the remaining comma-separated items of a JSON array. -/
def parseArrayItems : ℕ → List Char → List Json → Except String (Json × List Char)
  | 0, _, _ => .error "Maximum recursion depth exceeded"
  | fuel + 1, s, acc =>
    match parseValue fuel s with
    | .error e => .error e
    | .ok (v, r) =>
      match skipWs r with
      | ',' :: r2 => parseArrayItems fuel r2 (acc ++ [v])
      | ']' :: r2 => .ok (.arr (acc ++ [v]), r2)
      | _ => .error "Expecting ',' delimiter"

/-- Parse the remaining key-value pairs of a JSON object. -/
def parseObjItems : ℕ → List Char → List (String × Json) → Except String (Json × List Char)
  | 0, _, _ => .error "Maximum recursion depth exceeded"
  | fuel + 1, s, acc =>
    match skipWs s with
    | '"' :: r =>
      match parseStringBody r [] with
      | .error e => .error e
      | .ok (key, r2) =>
        match skipWs r2 with
        | ':' :: r3 =>
          match parseValue fuel r3 with
          | .error e => .error e
          | .ok (v, r4) =>
            match skipWs r4 with
            | ',' :: r5 => parseObjItems fuel r5 (acc ++ [(key, v)])
            | '}' :: r5 => .ok (.obj (acc ++ [(key, v)]), r5)
            | _ => .error "Expecting ',' delimiter"
        | _ => .error "Expecting ':' delimiter"
    | _ => .error "Expecting property name enclosed in double quotes"

end

/-- Model of `json.load` on the file's full contents: parse one value and
require only whitespace after it. -/
def json_loads (content : String) : Except String Json :=
  match parseValue (content.length + 1) content.data with
  | .error e => .error e
  | .ok (v, rest) =>
    if (skipWs rest).isEmpty then .ok v else .error "Extra data"

/-- `storage.load_standups`: an absent file yields `[]`; otherwise the
file's contents are handed to `json.load`, whose failure propagates. -/
def load_standups (file : Option String) : Except String Json :=
  match file with
  | none => .ok (.arr [])
  | some content => json_loads content

/-- C8 counterexample: on an existing but empty file, `load_standups` does
not return the empty list — `json.load` fails on empty input with
"Expecting value". -/
theorem C8_counterexample :
    load_standups (some "") = Except.error "Expecting value" ∧
    load_standups (some "") ≠ Except.ok (Json.arr []) :=
  ⟨rfl, fun h => nomatch h⟩

/-- C8 (amended): `load_standups` returns the empty list whenever the
backing file is absent, but an existing empty file makes `json.load` raise
("Expecting value") rather than return an empty list; an existing file
holding `[]` (what the constructor writes) parses to the empty list. -/
theorem C8_load_standups :
    load_standups none = Except.ok (Json.arr []) ∧
    (∃ e, load_standups (some "") = Except.error e) ∧
    load_standups (some "[]") = Except.ok (Json.arr []) :=
  ⟨rfl, ⟨"Expecting value", rfl⟩, rfl⟩

end AsyncStandup
